import Mathlib

/-!
# Verification of `megengine/functional/loss.py`

Shallow embedding of the loss functions in
`src/python_module/megengine/functional/loss.py` together with proofs of the
behavioural properties stated in the specification.

Modelling conventions:

* Tensor values are real numbers (`ℝ`).  Elementwise losses (`l1_loss`,
  `square_loss`, `smooth_l1_loss`) only look at the multiset of elements, so
  their inputs are modelled as flat `List ℝ` of the tensor's elements;
  `hinge_loss` and `triplet_margin_loss` reduce along axis 1 of a rank-2
  tensor, so their inputs are lists of rows (`List (List ℝ)`).
* The `cross_entropy` family reduces along one distinguished axis of a
  rank-(n+1) tensor.  Such a tensor, together with its reduction axis,
  factors as `outer × class × inner`, where `outer` is the product of the
  dimensions before the axis, `class` the size of the axis dimension and
  `inner` the product of the dimensions after the axis; the rank-n label
  tensor factors as `outer × inner`.  We therefore model the input as a
  function `Fin O → Fin (C+1) → Fin I → ℝ` (the axis dimension is `C+1`:
  a softmax/pick axis of size zero is meaningless) and the label tensor as
  `Fin O → Fin I → ℤ` (labels are integers, so that the `ignore_index`
  comparison against `-1` is expressible).  This captures arbitrary ranks
  and axes.  The factorisation erases the two ranks themselves, so the
  checked entry points take the two ranks (`ndim` in the Python source)
  as explicit arguments.
* Python `assert` failures are modelled as `Except` errors, classified by
  the spec's §7 taxonomy (`shapeError` / `valueError`).
* The hosting tensor library's primitives (`abs`, `equal`, `log`, `maximum`,
  `power`, `relu`, `indexing_one_hot`, `where`, `zero_grad`) are not part of
  this file's source; they are modelled from the spec's §6 capability list.
-/

namespace MegLoss

/-- Error taxonomy of the module, following the spec's §7 classification:
`shapeError` for a rank or shape mismatch between paired tensors and
`valueError` for an invalid enumerated/numeric parameter.  In the Python
source both surface as failed `assert` statements carrying the message;
the spec classifies them by condition. -/
inductive LossError where
  | shapeError (msg : String)
  | valueError (msg : String)
deriving DecidableEq, Repr

/-- Mean of all the elements of a tensor (`Tensor.mean()`), on the flat list
of elements.  (For an empty tensor this is `0 / 0 = 0` in `ℝ`.) -/
noncomputable def listMean (l : List ℝ) : ℝ := l.sum / l.length

/-- `l1_loss(pred, label)`: `diff = pred - label; return abs(diff).mean()`
(loss.py lines 60-61), elementwise on same-shaped tensors. -/
noncomputable def l1_loss (pred label : List ℝ) : ℝ :=
  listMean (List.zipWith (fun x y => |x - y|) pred label)

/-- `square_loss(pred, label)`: `diff = pred - label; return (diff ** 2).mean()`
(loss.py lines 92-93). -/
noncomputable def square_loss (pred label : List ℝ) : ℝ :=
  listMean (List.zipWith (fun x y => (x - y) ^ 2) pred label)

/-- Modelled from the spec: the elementwise conditional select
`where(mask, a, b)` imported from `.tensor` — "elementwise conditional
select given a boolean mask and two value tensors" (spec §6). -/
noncomputable def select (mask : Prop) [Decidable mask] (a b : ℝ) : ℝ :=
  if mask then a else b

/-- `smooth_l1_loss(pred, label)` (loss.py lines 386-391):
`diff = abs(pred - label); l2_loss = 0.5 * (diff ** 2); l1_loss = diff - 0.5;
mask = diff < 1; loss = where(mask, l2_loss, l1_loss); return loss.mean()`. -/
noncomputable def smooth_l1_loss (pred label : List ℝ) : ℝ :=
  listMean (List.zipWith (fun x y =>
    select (|x - y| < 1) (0.5 * |x - y| ^ 2) (|x - y| - 0.5)) pred label)

/-- Modelled from the spec: `relu` imported from `.elemwise`
(`relu(x) = max(x, 0)`). -/
noncomputable def relu (x : ℝ) : ℝ := max x 0

/-- `hinge_loss(pred, label, norm)` (loss.py lines 303-342).  The Python
source first checks `assert norm in ["L1", "L2"]` (an invalid enumerated
parameter, spec §7: ValueError), then computes `loss = relu(1.0 - pred * label)`
and returns `loss.sum(axis=1).mean()` for `"L1"` and
`(loss ** 2).sum(axis=1).mean()` otherwise. -/
noncomputable def hinge_loss (pred label : List (List ℝ)) (norm : String) :
    Except LossError ℝ :=
  if norm = "L1" ∨ norm = "L2" then
    let loss := List.zipWith
      (fun prow lrow => List.zipWith (fun x y => relu (1.0 - x * y)) prow lrow)
      pred label
    if norm = "L1" then
      .ok (listMean (loss.map List.sum))
    else
      .ok (listMean (loss.map (fun row => (row.map (fun v => v ^ 2)).sum)))
  else
    .error (.valueError "norm must be L1 or L2")

/-- `Tensor.shapeof()` for a rank-2 tensor modelled as a list of rows: the
per-row lengths.  Two rank-2 tensors have equal shape iff these lists are
equal, so `assert_equal(s0, s1)` is modelled as equality of these lists. -/
def shapeof2 (t : List (List ℝ)) : List ℕ := t.map List.length

/-- `triplet_margin_loss(anchor, positive, negative, margin, p)`
(loss.py lines 192-233).  The Python source asserts the three shapes equal
(spec §7: ShapeError), that all ranks are 2 (enforced here by the rank-2
list-of-rows type), and `assert p > 0` (spec §7: ValueError), then computes
`d1 = power(power(abs(anchor - positive), p).sum(axis=1), 1 / p)` (and `d2`
against `negative`) and returns `maximum(d1 - d2 + margin, 0).mean()`.
`power` with a real exponent is `Real.rpow`. -/
noncomputable def triplet_margin_loss (anchor positive negative : List (List ℝ))
    (margin : ℝ) (p : ℝ) : Except LossError ℝ :=
  if shapeof2 anchor = shapeof2 positive ∧ shapeof2 positive = shapeof2 negative then
    if 0 < p then
      let diff0 := List.zipWith (List.zipWith (fun x y => |x - y|)) anchor positive
      let diff1 := List.zipWith (List.zipWith (fun x y => |x - y|)) anchor negative
      let d1 := diff0.map (fun row => ((row.map (fun v => v ^ p)).sum) ^ (1 / p))
      let d2 := diff1.map (fun row => ((row.map (fun v => v ^ p)).sum) ^ (1 / p))
      .ok (listMean (List.zipWith (fun a b => max (a - b + margin) 0) d1 d2))
    else
      .error (.valueError "a margin with a value greater than 0")
  else
    .error (.shapeError "anchor, positive and negative must have the same shape")

/-! ## The `cross_entropy` family

A rank-(n+1) tensor with a distinguished reduction axis is factored as
`outer × class × inner` (see the header); `O`, `C+1` and `I` below are the
three factors. -/

variable {O C I : ℕ}

/-- Modelled from the spec: the elementwise `equal` mask from `.elemwise` —
"elementwise comparison producing a 0/1 mask tensor" (spec §6), at a pair of
integer entries. -/
def equal (a b : ℤ) : ℤ := if a = b then 1 else 0

/-- Modelled from the spec: `indexing_one_hot(src, index, axis)` from `.nn` —
the "indexed pick one value per slice along the axis" gather (spec §6):
entry `(o, i)` of the result is entry `(o, index o i, i)` of `src`.
A label outside `[0, C+1)` addresses no class; the model returns `0` there
(the source's behaviour on an out-of-range label is not specified, and every
claim picks with in-range labels, if need be after `ignore_index` masking). -/
def indexing_one_hot (src : Fin O → Fin (C + 1) → Fin I → ℝ)
    (index : Fin O → Fin I → ℤ) : Fin O → Fin I → ℝ :=
  fun o i =>
    if h : 0 ≤ index o i ∧ index o i < (C + 1 : ℤ) then
      src o ⟨(index o i).toNat, by omega⟩ i
    else 0

/-- Modelled from the spec: `zero_grad` from `.utils` is the
"gradient-blocking (stop-gradient) operation" (spec §6); it is the identity
on values. -/
def zero_grad (x : ℝ) : ℝ := x

/-- Sum of a rank-2 (outer × inner) tensor over all its entries
(`Tensor.sum()`). -/
noncomputable def sum2 (f : Fin O → Fin I → ℝ) : ℝ := ∑ o, ∑ i, f o i

/-- Mean of a rank-2 (outer × inner) tensor over all its entries
(`Tensor.mean()`). -/
noncomputable def mean2 (f : Fin O → Fin I → ℝ) : ℝ := sum2 f / (O * I : ℕ)

/-- `Tensor.max(axis=axis, keepdims=True)`: maximum along the class axis. -/
noncomputable def maxAxis (t : Fin O → Fin (C + 1) → Fin I → ℝ) :
    Fin O → Fin I → ℝ :=
  fun o i => Finset.univ.sup' ⟨0, Finset.mem_univ 0⟩ (fun c => t o c i)

/-- `Tensor.sum(axis=axis, keepdims=True)`: sum along the class axis. -/
noncomputable def sumAxis (t : Fin O → Fin (C + 1) → Fin I → ℝ) :
    Fin O → Fin I → ℝ :=
  fun o i => ∑ c, t o c i

/-- Body of `cross_entropy(inp, target, axis, ignore_index)` after the rank
guard (loss.py lines 139-145):
`if ignore_index != -1: mask = 1 - equal(target, ignore_index);
target = target * mask; loss = -log(indexing_one_hot(inp, target, axis)) * mask;
return loss.sum() / maximum(mask.sum(), 1.0)`
`else: return -log(indexing_one_hot(inp, target, axis)).mean()`. -/
noncomputable def cross_entropy (inp : Fin O → Fin (C + 1) → Fin I → ℝ)
    (target : Fin O → Fin I → ℤ) (ignore_index : ℤ) : ℝ :=
  if ignore_index ≠ -1 then
    let mask : Fin O → Fin I → ℤ := fun o i => 1 - equal (target o i) ignore_index
    let target' : Fin O → Fin I → ℤ := fun o i => target o i * mask o i
    let loss : Fin O → Fin I → ℝ := fun o i =>
      -Real.log (indexing_one_hot inp target' o i) * (mask o i : ℝ)
    sum2 loss / max (sum2 fun o i => ((mask o i : ℤ) : ℝ)) 1.0
  else
    -(mean2 fun o i => Real.log (indexing_one_hot inp target o i))

/-- `cross_entropy` including the rank guard (loss.py lines 132-137):
`assert n0 == n1 + 1` with `n0 = inp.ndim`, `n1 = target.ndim` (spec §7:
ShapeError).  The factored tensor encoding erases the two ranks, so they are
passed explicitly. -/
noncomputable def cross_entropy_checked (inpNdim targetNdim : ℕ)
    (inp : Fin O → Fin (C + 1) → Fin I → ℝ) (target : Fin O → Fin I → ℤ)
    (ignore_index : ℤ) : Except LossError ℝ :=
  if inpNdim = targetNdim + 1 then
    .ok (cross_entropy inp target ignore_index)
  else
    .error (.shapeError "target ndim must be one less than input ndim")

/-- `pred = pred - zero_grad(pred.max(axis=axis, keepdims=True))`
(loss.py lines 179-180): the numerically-stable shift of the logits. -/
noncomputable def shiftT (pred : Fin O → Fin (C + 1) → Fin I → ℝ) :
    Fin O → Fin (C + 1) → Fin I → ℝ :=
  fun o c i => pred o c i - zero_grad (maxAxis pred o i)

/-- Body of `cross_entropy_with_softmax(pred, label, axis, label_smooth)`
after the rank guard (loss.py lines 176-189):
`num_classes = pred.shapeof(axis)` (here `C + 1`);
`offset = zero_grad(pred.max(axis=axis, keepdims=True)); pred = pred - offset;
down = exp(pred).sum(axis=axis, keepdims=True);
up = indexing_one_hot(pred, label, axis);
if label_smooth != 0: factor = label_smooth / num_classes;
up = up * (1 - label_smooth) + pred.sum(axis=axis, keepdims=True) * factor;
return (log(down) - up).mean()`. -/
noncomputable def cross_entropy_with_softmax
    (pred : Fin O → Fin (C + 1) → Fin I → ℝ) (label : Fin O → Fin I → ℤ)
    (label_smooth : ℝ) : ℝ :=
  mean2 fun o i =>
    Real.log (sumAxis (fun o c i => Real.exp (shiftT pred o c i)) o i) -
      (if label_smooth ≠ 0 then
        indexing_one_hot (shiftT pred) label o i * (1 - label_smooth) +
          sumAxis (shiftT pred) o i * (label_smooth / (C + 1 : ℕ))
      else indexing_one_hot (shiftT pred) label o i)

/-- `cross_entropy_with_softmax` including the rank guard (loss.py lines
169-174, the same `assert n0 == n1 + 1` as `cross_entropy`). -/
noncomputable def cross_entropy_with_softmax_checked (predNdim labelNdim : ℕ)
    (pred : Fin O → Fin (C + 1) → Fin I → ℝ) (label : Fin O → Fin I → ℤ)
    (label_smooth : ℝ) : Except LossError ℝ :=
  if predNdim = labelNdim + 1 then
    .ok (cross_entropy_with_softmax pred label label_smooth)
  else
    .error (.shapeError "target ndim must be one less than input ndim")

/-- Body of `nll_loss(pred, label, axis, ignore_index)` after the rank guard
(loss.py lines 295-300):
`mask = 1.0 - equal(label, ignore_index); label = label * mask;
loss = indexing_one_hot(pred, label, axis) * mask;
return -1.0 * loss.sum() / maximum(mask.sum(), 1.0)`. -/
noncomputable def nll_loss (pred : Fin O → Fin (C + 1) → Fin I → ℝ)
    (label : Fin O → Fin I → ℤ) (ignore_index : ℤ) : ℝ :=
  let mask : Fin O → Fin I → ℤ := fun o i => 1 - equal (label o i) ignore_index
  let label' : Fin O → Fin I → ℤ := fun o i => label o i * mask o i
  let loss : Fin O → Fin I → ℝ := fun o i =>
    indexing_one_hot pred label' o i * (mask o i : ℝ)
  let num : ℝ := -1.0 * sum2 loss
  num / max (sum2 fun o i => ((mask o i : ℤ) : ℝ)) 1.0

/-- `nll_loss` including the rank guard (loss.py lines 288-293, the same
`assert n0 == n1 + 1` as `cross_entropy`). -/
noncomputable def nll_loss_checked (predNdim labelNdim : ℕ)
    (pred : Fin O → Fin (C + 1) → Fin I → ℝ) (label : Fin O → Fin I → ℤ)
    (ignore_index : ℤ) : Except LossError ℝ :=
  if predNdim = labelNdim + 1 then
    .ok (nll_loss pred label ignore_index)
  else
    .error (.shapeError "target ndim must be one less than input ndim")

/-- Modelled from the spec: `softmax` along the class axis, as used by the
documented equivalence (`pred = F.log(F.softmax(data))`, loss.py lines
276-278): `softmax(x) = exp(x) / exp(x).sum(axis, keepdims=True)`. -/
noncomputable def softmax (x : Fin O → Fin (C + 1) → Fin I → ℝ) :
    Fin O → Fin (C + 1) → Fin I → ℝ :=
  fun o c i => Real.exp (x o c i) / ∑ c', Real.exp (x o c' i)

/-- Modelled from the spec: `log_softmax(x) = log(softmax(x))`, the
`F.log(F.softmax(data))` composition of the documented equivalence. -/
noncomputable def log_softmax (x : Fin O → Fin (C + 1) → Fin I → ℝ) :
    Fin O → Fin (C + 1) → Fin I → ℝ :=
  fun o c i => Real.log (softmax x o c i)

/-- The documented-equivalence example data `[[1, 0.5], [0.3, 1.2]]`
(loss.py lines 270-272): two rows, two classes, trivial inner dimension. -/
noncomputable def dataC2 : Fin 2 → Fin 2 → Fin 1 → ℝ :=
  fun o c _ =>
    if o = 0 then (if c = 0 then 1 else 0.5) else (if c = 0 then 0.3 else 1.2)

/-- The documented-equivalence example label `[1, 1]`
(loss.py lines 273-275). -/
def labelC2 : Fin 2 → Fin 1 → ℤ := fun _ _ => 1

/-! ## Spec-side formulas (for the refinement claims)

These two definitions follow the wording of the spec's §4 table; the
theorems below compare them with the definitions taken from the source. -/

/-- The spec's formula for `cross_entropy` (§4 table row), written from the
spec's words: "if ignore_index≠-1: mask = 1 where target≠ignore_index else 0;
target←target·mask; loss = -log(pick(inp,target,axis))·mask;
return sum(loss)/max(sum(mask),1).  else: -mean(log(pick(inp,target,axis)))". -/
noncomputable def cross_entropy_specFormula (inp : Fin O → Fin (C + 1) → Fin I → ℝ)
    (target : Fin O → Fin I → ℤ) (ignore_index : ℤ) : ℝ :=
  if ignore_index ≠ -1 then
    let mask : Fin O → Fin I → ℤ := fun o i => if target o i ≠ ignore_index then 1 else 0
    let target' : Fin O → Fin I → ℤ := fun o i => target o i * mask o i
    let loss : Fin O → Fin I → ℝ := fun o i =>
      -Real.log (indexing_one_hot inp target' o i) * (mask o i : ℝ)
    sum2 loss / max (sum2 fun o i => ((mask o i : ℤ) : ℝ)) 1
  else
    -(mean2 fun o i => Real.log (indexing_one_hot inp target o i))

/-- The spec's formula for `cross_entropy_with_softmax` (§4 table row),
written from the spec's words: "offset = stop-gradient(max(pred,axis));
shifted = pred-offset; logsumexp = log(sum(exp(shifted),axis));
picked = pick(shifted,label,axis); if label_smooth≠0:
picked = picked·(1-label_smooth) + sum(shifted,axis)·(label_smooth/num_classes);
return mean(logsumexp - picked)", with `num_classes` the size of the axis
dimension (`C + 1` in the factored encoding). -/
noncomputable def cross_entropy_with_softmax_specFormula
    (pred : Fin O → Fin (C + 1) → Fin I → ℝ) (label : Fin O → Fin I → ℤ)
    (label_smooth : ℝ) : ℝ :=
  let offset : Fin O → Fin I → ℝ := maxAxis pred
  let shifted : Fin O → Fin (C + 1) → Fin I → ℝ := fun o c i => pred o c i - offset o i
  let logsumexp : Fin O → Fin I → ℝ := fun o i => Real.log (∑ c, Real.exp (shifted o c i))
  let picked : Fin O → Fin I → ℝ := fun o i => indexing_one_hot shifted label o i
  mean2 fun o i =>
    logsumexp o i -
      (if label_smooth ≠ 0 then
        picked o i * (1 - label_smooth) +
          (∑ c, shifted o c i) * (label_smooth / (C + 1 : ℕ))
      else picked o i)

/-! ## Helper lemmas -/

/-- Over `ℤ`, the source's `1 - equal a b` is the spec's
"1 where `a ≠ b` else 0" mask. -/
lemma one_sub_equal (a b : ℤ) : 1 - equal a b = if a ≠ b then 1 else 0 := by
  unfold equal
  by_cases h : a = b <;> simp [h]

/-- `zipWith` of a binary function over twice the same list. -/
lemma zipWith_self {α β : Type} (f : α → α → β) (l : List α) :
    List.zipWith f l l = l.map fun a => f a a := by
  induction l with
  | nil => rfl
  | cons a t ih => simp [ih]

/-- The mean of a list of zeros is zero. -/
lemma listMean_map_zero {α : Type} (l : List α) :
    listMean (l.map fun _ => (0 : ℝ)) = 0 := by
  unfold listMean
  rw [List.sum_eq_zero (by intro x hx; rcases List.mem_map.mp hx with ⟨a, _, rfl⟩; rfl)]
  exact zero_div _

/-- The source's `cross_entropy` body computes the spec's §4 formula. -/
lemma cross_entropy_eq_specFormula (inp : Fin O → Fin (C + 1) → Fin I → ℝ)
    (target : Fin O → Fin I → ℤ) (ignore_index : ℤ) :
    cross_entropy inp target ignore_index =
      cross_entropy_specFormula inp target ignore_index := by
  simp only [cross_entropy, cross_entropy_specFormula, one_sub_equal]
  norm_num

/-- The source's `cross_entropy_with_softmax` body computes the spec's §4
formula (stop-gradient is the identity on values). -/
lemma cross_entropy_with_softmax_eq_specFormula
    (pred : Fin O → Fin (C + 1) → Fin I → ℝ) (label : Fin O → Fin I → ℤ)
    (label_smooth : ℝ) :
    cross_entropy_with_softmax pred label label_smooth =
      cross_entropy_with_softmax_specFormula pred label label_smooth := rfl

/-! ## Claims -/

/-- C1: calling `hinge_loss` with a `norm` argument not in {"L1","L2"} fails
with the spec's ValueError condition, and calling `triplet_margin_loss`
(on well-shaped inputs, the shape assertion coming first in the source) with
`p ≤ 0` fails with the ValueError condition; both failures are returned
directly as the function's result, i.e. propagate immediately to the caller. -/
theorem C1_invalid_params (pred label : List (List ℝ)) (norm : String)
    (h1 : norm ≠ "L1") (h2 : norm ≠ "L2")
    (anchor positive negative : List (List ℝ)) (margin p : ℝ)
    (hshape : shapeof2 anchor = shapeof2 positive ∧
      shapeof2 positive = shapeof2 negative)
    (hp : p ≤ 0) :
    hinge_loss pred label norm = .error (.valueError "norm must be L1 or L2") ∧
    triplet_margin_loss anchor positive negative margin p =
      .error (.valueError "a margin with a value greater than 0") := by
  constructor
  · unfold hinge_loss
    rw [if_neg (by push_neg; exact ⟨h1, h2⟩)]
  · unfold triplet_margin_loss
    rw [if_pos hshape, if_neg (not_lt.mpr hp)]

/-- Witness for C1 at the spec's boundary inputs `norm = "L3"` and `p = 0`. -/
theorem C1_witness :
    hinge_loss [[(0.5 : ℝ)]] [[1]] "L3" =
      .error (.valueError "norm must be L1 or L2") ∧
    triplet_margin_loss [[(0.5 : ℝ)]] [[0.4]] [[0.3]] 1 0 =
      .error (.valueError "a margin with a value greater than 0") :=
  C1_invalid_params _ _ "L3" (by decide) (by decide) _ _ _ 1 0 ⟨rfl, rfl⟩ le_rfl

/-- C5: `cross_entropy(inp, target, axis, ignore_index)` returns, when the
rank precondition holds, exactly the spec's formula (masked
`sum(-log(pick(inp, target·mask, axis))·mask) / max(sum(mask), 1)` when
`ignore_index ≠ -1`, and `-mean(log(pick(inp, target, axis)))` when
`ignore_index = -1`), and fails with the ShapeError condition when
`rank(inp) ≠ rank(target) + 1`. -/
theorem C5_cross_entropy_formula (O C I n0 n1 : ℕ)
    (inp : Fin O → Fin (C + 1) → Fin I → ℝ) (target : Fin O → Fin I → ℤ)
    (ignore_index : ℤ) :
    cross_entropy_checked n0 n1 inp target ignore_index =
      if n0 = n1 + 1 then .ok (cross_entropy_specFormula inp target ignore_index)
      else .error (.shapeError "target ndim must be one less than input ndim") := by
  unfold cross_entropy_checked
  by_cases h : n0 = n1 + 1
  · rw [if_pos h, if_pos h, cross_entropy_eq_specFormula]
  · rw [if_neg h, if_neg h]

/-- C6: `cross_entropy_with_softmax(pred, label, axis, label_smooth)`
returns, when the rank precondition holds, exactly the spec's
numerically-stable formula `mean(logsumexp - picked)` (with the
label-smoothing replacement of `picked` when `label_smooth ≠ 0`, and
`num_classes` the size of the axis dimension), and fails with the
ShapeError condition when `rank(pred) ≠ rank(label) + 1`. -/
theorem C6_cross_entropy_with_softmax_formula (O C I n0 n1 : ℕ)
    (pred : Fin O → Fin (C + 1) → Fin I → ℝ) (label : Fin O → Fin I → ℤ)
    (label_smooth : ℝ) :
    cross_entropy_with_softmax_checked n0 n1 pred label label_smooth =
      if n0 = n1 + 1 then
        .ok (cross_entropy_with_softmax_specFormula pred label label_smooth)
      else .error (.shapeError "target ndim must be one less than input ndim") := by
  unfold cross_entropy_with_softmax_checked
  by_cases h : n0 = n1 + 1
  · rw [if_pos h, if_pos h, cross_entropy_with_softmax_eq_specFormula]
  · rw [if_neg h, if_neg h]

/-- C8: for every tensor `pred`, `l1_loss(pred, pred) = 0` and
`square_loss(pred, pred) = 0`. -/
theorem C8_zero_at_equal_args (pred : List ℝ) :
    l1_loss pred pred = 0 ∧ square_loss pred pred = 0 := by
  constructor
  · unfold l1_loss
    rw [zipWith_self]
    have : (pred.map fun a => |a - a|) = pred.map fun _ => (0 : ℝ) := by
      simp
    rw [this, listMean_map_zero]
  · unfold square_loss
    rw [zipWith_self]
    have : (pred.map fun a => (a - a) ^ 2) = pred.map fun _ => (0 : ℝ) := by
      simp
    rw [this, listMean_map_zero]

/-- `indexing_one_hot src index o i` only depends on `index` through
`index o i`. -/
lemma indexing_one_hot_congr (src : Fin O → Fin (C + 1) → Fin I → ℝ)
    (idx idx' : Fin O → Fin I → ℤ) (o : Fin O) (i : Fin I)
    (h : idx o i = idx' o i) :
    indexing_one_hot src idx o i = indexing_one_hot src idx' o i := by
  unfold indexing_one_hot
  simp only [h]

/-- C4: when every entry of the target equals `ignore_index` (with
`ignore_index ≠ -1` for `cross_entropy`, whose masking branch is guarded by
that test; `nll_loss` masks unconditionally), the averaging denominator
`maximum(mask.sum(), 1.0)` of both functions is floored at 1 — no division
by zero — and both functions return 0.  The positivity assumption on the
input entries (so that their logarithm is finite) is carried along from the
claim. -/
theorem C4_all_ignored (O C I : ℕ)
    (inp pred : Fin O → Fin (C + 1) → Fin I → ℝ)
    (target label : Fin O → Fin I → ℤ) (ignCE ignNLL : ℤ)
    (hign : ignCE ≠ -1)
    (htarget : ∀ o i, target o i = ignCE)
    (hlabel : ∀ o i, label o i = ignNLL)
    (hpos : ∀ o c i, 0 < inp o c i) (hpos' : ∀ o c i, 0 < pred o c i) :
    (max (sum2 fun o i => ((1 - equal (target o i) ignCE : ℤ) : ℝ)) 1.0 = 1 ∧
      cross_entropy inp target ignCE = 0) ∧
    (max (sum2 fun o i => ((1 - equal (label o i) ignNLL : ℤ) : ℝ)) 1.0 = 1 ∧
      nll_loss pred label ignNLL = 0) := by
  have hm1 : ∀ o i, (1 - equal (target o i) ignCE) = 0 := by
    intro o i
    rw [htarget o i]
    simp [equal]
  have hm2 : ∀ o i, (1 - equal (label o i) ignNLL) = 0 := by
    intro o i
    rw [hlabel o i]
    simp [equal]
  have hs1 : (sum2 fun o i => ((1 - equal (target o i) ignCE : ℤ) : ℝ)) = 0 := by
    unfold sum2
    simp [hm1]
  have hs2 : (sum2 fun o i => ((1 - equal (label o i) ignNLL : ℤ) : ℝ)) = 0 := by
    unfold sum2
    simp [hm2]
  refine ⟨⟨?_, ?_⟩, ?_, ?_⟩
  · rw [hs1]; norm_num
  · simp [cross_entropy, sum2, hign, hm1]
  · rw [hs2]; norm_num
  · simp [nll_loss, sum2, hm2]

/-- Witness for C4: a single-entry target equal to `ignore_index = 5` for
`cross_entropy`, and a single-entry label equal to the default
`ignore_index = -1` for `nll_loss`. -/
theorem C4_witness :
    (max (sum2 fun o i : Fin 1 =>
        ((1 - equal ((fun _ _ : Fin 1 => (5 : ℤ)) o i) 5 : ℤ) : ℝ)) 1.0 = 1 ∧
      cross_entropy (fun _ _ _ : Fin 1 => (1 : ℝ)) (fun _ _ : Fin 1 => (5 : ℤ)) 5 = 0) ∧
    (max (sum2 fun o i : Fin 1 =>
        ((1 - equal ((fun _ _ : Fin 1 => (-1 : ℤ)) o i) (-1) : ℤ) : ℝ)) 1.0 = 1 ∧
      nll_loss (fun _ _ _ : Fin 1 => (1 : ℝ)) (fun _ _ : Fin 1 => (-1 : ℤ)) (-1) = 0) :=
  C4_all_ignored 1 0 1 (fun _ _ _ => 1) (fun _ _ _ => 1)
    (fun _ _ => 5) (fun _ _ => -1) 5 (-1) (by decide)
    (fun _ _ => rfl) (fun _ _ => rfl) (fun _ _ _ => one_pos) (fun _ _ _ => one_pos)

/-- `sum2` as a single sum over the product index type. -/
lemma sum2_eq_sum_prod (f : Fin O → Fin I → ℝ) :
    sum2 f = ∑ q : Fin O × Fin I, f q.1 q.2 := by
  unfold sum2
  exact (Fintype.sum_prod_type (f := fun q : Fin O × Fin I => f q.1 q.2)).symm

/-- C9: `nll_loss` masks unconditionally, so with the default
`ignore_index = -1` every entry whose label equals -1 is excluded from the
numerator (the sum runs over the entries with label ≠ -1 only) and from the
averaging denominator (which counts only those entries, floored at 1);
`cross_entropy` with `ignore_index = -1` performs no masking and returns a
plain mean of `-log(pick)` over every entry. -/
theorem C9_nll_masks_cross_entropy_does_not (O C I : ℕ)
    (pred inp : Fin O → Fin (C + 1) → Fin I → ℝ)
    (label target : Fin O → Fin I → ℤ) :
    nll_loss pred label (-1) =
      -((∑ q ∈ Finset.univ.filter (fun q : Fin O × Fin I => label q.1 q.2 ≠ -1),
          indexing_one_hot pred label q.1 q.2) /
        max ((Finset.univ.filter
          (fun q : Fin O × Fin I => label q.1 q.2 ≠ -1)).card : ℝ) 1) ∧
    cross_entropy inp target (-1) =
      -((∑ o, ∑ i, Real.log (indexing_one_hot inp target o i)) /
        ((O * I : ℕ) : ℝ)) := by
  constructor
  · have hpoint : ∀ (o : Fin O) (i : Fin I),
        indexing_one_hot pred
            (fun o' i' => label o' i' * (1 - equal (label o' i') (-1))) o i *
          ((1 - equal (label o i) (-1) : ℤ) : ℝ) =
        if label o i ≠ -1 then indexing_one_hot pred label o i else 0 := by
      intro o i
      by_cases h : label o i = -1
      · rw [if_neg (by simp [h])]
        simp [equal, h]
      · rw [if_pos h]
        have hmask : (1 - equal (label o i) (-1)) = 1 := by simp [equal, h]
        rw [indexing_one_hot_congr pred _ label o i (by rw [hmask, mul_one]),
          hmask]
        simp
    have hS : (sum2 fun o i =>
        indexing_one_hot pred
            (fun o' i' => label o' i' * (1 - equal (label o' i') (-1))) o i *
          ((1 - equal (label o i) (-1) : ℤ) : ℝ)) =
        ∑ q ∈ Finset.univ.filter (fun q : Fin O × Fin I => label q.1 q.2 ≠ -1),
          indexing_one_hot pred label q.1 q.2 := by
      rw [sum2_eq_sum_prod, Finset.sum_filter]
      exact Finset.sum_congr rfl fun q _ => hpoint q.1 q.2
    have hD : (sum2 fun o i => ((1 - equal (label o i) (-1) : ℤ) : ℝ)) =
        ((Finset.univ.filter
          (fun q : Fin O × Fin I => label q.1 q.2 ≠ -1)).card : ℝ) := by
      rw [sum2_eq_sum_prod, ← Finset.sum_boole]
      refine Finset.sum_congr rfl fun q _ => ?_
      by_cases h : label q.1 q.2 = -1 <;> simp [equal, h]
    simp only [nll_loss, hS, hD]
    norm_num [neg_div]
  · unfold cross_entropy
    rw [if_neg (by simp)]
    unfold mean2 sum2
    norm_num

/-- Adding a constant to every element shifts a finite `sup'` by that
constant. -/
lemma sup'_add_const {α : Type} (s : Finset α) (h : s.Nonempty) (f : α → ℝ)
    (k : ℝ) : (s.sup' h fun c => f c + k) = s.sup' h f + k := by
  apply le_antisymm
  · exact Finset.sup'_le _ _ fun c hc => add_le_add_right (Finset.le_sup' f hc) k
  · refine add_le_of_le_sub_right (Finset.sup'_le _ _ fun c hc => ?_)
    exact le_sub_iff_add_le.mpr (Finset.le_sup' (fun c => f c + k) hc)

/-- `maxAxis` of a tensor shifted by a constant. -/
lemma maxAxis_add_const (t : Fin O → Fin (C + 1) → Fin I → ℝ) (k : ℝ) :
    maxAxis (fun o c i => t o c i + k) = fun o i => maxAxis t o i + k := by
  funext o i
  unfold maxAxis
  exact sup'_add_const _ _ _ k

/-- The numerically-stable shift of the logits cancels a constant added to
all of them. -/
lemma shiftT_add_const (pred : Fin O → Fin (C + 1) → Fin I → ℝ) (k : ℝ) :
    shiftT (fun o c i => pred o c i + k) = shiftT pred := by
  funext o c i
  unfold shiftT zero_grad
  rw [maxAxis_add_const]
  ring

/-- C3: `cross_entropy_with_softmax` is invariant under adding a scalar
constant to all logits along the reduction axis (softmax-shift invariance),
for every `pred`, `label` and `label_smooth`. -/
theorem C3_softmax_shift_invariance (O C I : ℕ)
    (pred : Fin O → Fin (C + 1) → Fin I → ℝ) (label : Fin O → Fin I → ℤ)
    (label_smooth k : ℝ) :
    cross_entropy_with_softmax (fun o c i => pred o c i + k) label label_smooth =
      cross_entropy_with_softmax pred label label_smooth := by
  unfold cross_entropy_with_softmax
  rw [shiftT_add_const]

/-- C7: `smooth_l1_loss` is the mean of the piecewise expression
`0.5·diff²` where `diff = |pred - label| < 1` and `diff - 0.5` otherwise
(threshold fixed at 1), and on the spec's example input it is within
`10⁻⁶` of `0.5608334`. -/
theorem C7_smooth_l1_formula (pred label : List ℝ) :
    smooth_l1_loss pred label =
      listMean (List.zipWith (fun x y =>
        if |x - y| < 1 then 0.5 * |x - y| ^ 2 else |x - y| - 0.5) pred label) ∧
    |smooth_l1_loss [0.5, -0.5, 0.1, -0.6, 0.7, 0.8] [0.4, 1.5, 1.2, 0, 0.1, 2.2] -
        0.5608334| < 1 / 1000000 := by
  constructor
  · rfl
  · have h1 : |(0.5 : ℝ) - 0.4| = 0.1 := (abs_eq (by norm_num)).mpr (Or.inl (by norm_num))
    have h2 : |(-0.5 : ℝ) - 1.5| = 2 := (abs_eq (by norm_num)).mpr (Or.inr (by norm_num))
    have h3 : |(0.1 : ℝ) - 1.2| = 1.1 := (abs_eq (by norm_num)).mpr (Or.inr (by norm_num))
    have h4 : |(-0.6 : ℝ) - 0| = 0.6 := (abs_eq (by norm_num)).mpr (Or.inr (by norm_num))
    have h5 : |(0.7 : ℝ) - 0.1| = 0.6 := (abs_eq (by norm_num)).mpr (Or.inl (by norm_num))
    have h6 : |(0.8 : ℝ) - 2.2| = 1.4 := (abs_eq (by norm_num)).mpr (Or.inr (by norm_num))
    have hval : smooth_l1_loss [0.5, -0.5, 0.1, -0.6, 0.7, 0.8]
        [0.4, 1.5, 1.2, 0, 0.1, 2.2] = 673 / 1200 := by
      unfold smooth_l1_loss select
      simp only [List.zipWith_cons_cons, List.zipWith_nil_right, h1, h2, h3, h4, h5, h6]
      norm_num [listMean]
    rw [hval]
    exact abs_lt.mpr ⟨by norm_num, by norm_num⟩

/-- The mean of a list of nonnegative reals is nonnegative. -/
lemma listMean_nonneg (l : List ℝ) (h : ∀ x ∈ l, 0 ≤ x) : 0 ≤ listMean l :=
  div_nonneg (List.sum_nonneg h) (Nat.cast_nonneg _)

/-- Every element of a `zipWith` satisfies any property that the combining
function always produces. -/
lemma forall_mem_zipWith {α β γ : Type} (f : α → β → γ) (P : γ → Prop)
    (hf : ∀ x y, P (f x y)) :
    ∀ (as : List α) (bs : List β), ∀ z ∈ List.zipWith f as bs, P z := by
  intro as
  induction as with
  | nil => intro bs z hz; simp at hz
  | cons a t ih =>
    intro bs z hz
    cases bs with
    | nil => simp at hz
    | cons b bs' =>
      rcases List.mem_cons.mp hz with h | h
      · rw [h]; exact hf a b
      · exact ih bs' z h

/-- C10: on admissible inputs, `l1_loss`, `square_loss`, `smooth_l1_loss`,
`hinge_loss` and `triplet_margin_loss` (with `margin ≥ 0`) each return a
nonnegative value: every one of them averages elementwise-nonnegative terms
(an absolute value, a square, a nonnegative piecewise expression, a relu,
or a maximum with 0). -/
theorem C10_losses_nonneg (pred label : List ℝ) (hpred hlabel : List (List ℝ))
    (norm : String) (anchor positive negative : List (List ℝ))
    (margin p r s : ℝ) (hmargin : 0 ≤ margin)
    (hr : hinge_loss hpred hlabel norm = .ok r)
    (hs : triplet_margin_loss anchor positive negative margin p = .ok s) :
    0 ≤ l1_loss pred label ∧ 0 ≤ square_loss pred label ∧
    0 ≤ smooth_l1_loss pred label ∧ 0 ≤ r ∧ 0 ≤ s := by
  refine ⟨?_, ?_, ?_, ?_, ?_⟩
  · exact listMean_nonneg _ (forall_mem_zipWith _ _ (fun x y => abs_nonneg _) _ _)
  · exact listMean_nonneg _ (forall_mem_zipWith _ _ (fun x y => sq_nonneg _) _ _)
  · refine listMean_nonneg _ (forall_mem_zipWith _ _ (fun x y => ?_) _ _)
    unfold select
    split_ifs with h
    · positivity
    · have := not_lt.mp h
      linarith
  · unfold hinge_loss at hr
    split_ifs at hr with hnorm hL1
    · simp only [Except.ok.injEq] at hr
      subst hr
      refine listMean_nonneg _ ?_
      intro z hz
      rcases List.mem_map.mp hz with ⟨row, hrow, rfl⟩
      refine List.sum_nonneg ?_
      intro v hv
      have hrows : ∀ row' ∈ List.zipWith
          (fun prow lrow => List.zipWith (fun x y => relu (1.0 - x * y)) prow lrow)
          hpred hlabel, ∀ v' ∈ row', (0 : ℝ) ≤ v' :=
        forall_mem_zipWith _ (fun row' => ∀ v' ∈ row', (0 : ℝ) ≤ v')
          (fun prow lrow => forall_mem_zipWith _ (fun v' => (0 : ℝ) ≤ v')
            (fun x y => le_max_right (1.0 - x * y) 0) prow lrow) hpred hlabel
      exact hrows row hrow v hv
    · simp only [Except.ok.injEq] at hr
      subst hr
      refine listMean_nonneg _ ?_
      intro z hz
      rcases List.mem_map.mp hz with ⟨row, hrow, rfl⟩
      refine List.sum_nonneg ?_
      intro v hv
      rcases List.mem_map.mp hv with ⟨w, hw, rfl⟩
      exact sq_nonneg w
  · unfold triplet_margin_loss at hs
    split_ifs at hs with hsh hp0
    simp only [Except.ok.injEq] at hs
    subst hs
    exact listMean_nonneg _
      (forall_mem_zipWith _ _ (fun x y => le_max_right _ _) _ _)

/-- Evaluation of `hinge_loss` on a one-element input, for the C10 witness. -/
lemma hinge_loss_eval_one :
    hinge_loss [[(1 : ℝ)]] [[1]] "L1" = .ok 0 := by
  unfold hinge_loss
  rw [if_pos (Or.inl rfl), if_pos rfl]
  norm_num [relu, listMean]

/-- Evaluation of `triplet_margin_loss` on a one-element input with
`margin = 1`, `p = 1`, for the C10 witness. -/
lemma triplet_margin_loss_eval_one :
    triplet_margin_loss [[(1 : ℝ)]] [[1]] [[1]] 1 1 = .ok 1 := by
  unfold triplet_margin_loss
  rw [if_pos ⟨rfl, rfl⟩, if_pos one_pos]
  norm_num [listMean, Real.rpow_one]

/-- Witness for C10 on concrete inputs. -/
theorem C10_witness :
    0 ≤ l1_loss [(1 : ℝ)] [2] ∧ 0 ≤ square_loss [(1 : ℝ)] [2] ∧
    0 ≤ smooth_l1_loss [(1 : ℝ)] [2] ∧ 0 ≤ (0 : ℝ) ∧ 0 ≤ (1 : ℝ) :=
  C10_losses_nonneg [(1 : ℝ)] [2] [[(1 : ℝ)]] [[1]] "L1"
    [[(1 : ℝ)]] [[1]] [[1]] 1 1 0 1 zero_le_one
    hinge_loss_eval_one triplet_margin_loss_eval_one

/-- The sum of exponentials along the class axis is positive. -/
lemma sum_exp_pos (x : Fin O → Fin (C + 1) → Fin I → ℝ) (o : Fin O) (i : Fin I) :
    0 < ∑ c, Real.exp (x o c i) :=
  Finset.sum_pos (fun c _ => Real.exp_pos _) ⟨0, Finset.mem_univ 0⟩

/-- Pointwise closed form of `log_softmax`. -/
lemma log_softmax_eq (x : Fin O → Fin (C + 1) → Fin I → ℝ) (o : Fin O)
    (c : Fin (C + 1)) (i : Fin I) :
    log_softmax x o c i = x o c i - Real.log (∑ c', Real.exp (x o c' i)) := by
  unfold log_softmax softmax
  rw [Real.log_div (Real.exp_ne_zero _) (ne_of_gt (sum_exp_pos x o i)), Real.log_exp]

/-- `indexing_one_hot` at an in-range label picks the addressed entry. -/
lemma indexing_one_hot_valid (src : Fin O → Fin (C + 1) → Fin I → ℝ)
    (idx : Fin O → Fin I → ℤ) (o : Fin O) (i : Fin I)
    (h0 : 0 ≤ idx o i) (h1 : idx o i < (C + 1 : ℤ)) :
    indexing_one_hot src idx o i = src o ⟨(idx o i).toNat, by omega⟩ i := by
  unfold indexing_one_hot
  rw [dif_pos ⟨h0, h1⟩]

/-- The numerically-stable per-entry term of `cross_entropy_with_softmax`
equals minus the corresponding log-softmax value: the row maximum cancels. -/
lemma cews_term_eq (x : Fin O → Fin (C + 1) → Fin I → ℝ) (o : Fin O)
    (i : Fin I) (c : Fin (C + 1)) :
    Real.log (∑ c', Real.exp (shiftT x o c' i)) - shiftT x o c i =
      -(x o c i - Real.log (∑ c', Real.exp (x o c' i))) := by
  have hM : ∀ c' : Fin (C + 1),
      Real.exp (shiftT x o c' i) =
        Real.exp (x o c' i) / Real.exp (maxAxis x o i) := by
    intro c'
    unfold shiftT zero_grad
    rw [Real.exp_sub]
  rw [Finset.sum_congr rfl fun c' _ => hM c', ← Finset.sum_div,
    Real.log_div (ne_of_gt (sum_exp_pos x o i)) (Real.exp_ne_zero _),
    Real.log_exp]
  unfold shiftT zero_grad
  ring

/-- With `label_smooth = 0`, `cross_entropy_with_softmax` is the mean of
`logsumexp - picked`. -/
lemma cews_zero_smooth (x : Fin O → Fin (C + 1) → Fin I → ℝ)
    (y : Fin O → Fin I → ℤ) :
    cross_entropy_with_softmax x y 0 =
      mean2 fun o i => Real.log (∑ c, Real.exp (shiftT x o c i)) -
        indexing_one_hot (shiftT x) y o i := by
  unfold cross_entropy_with_softmax sumAxis
  norm_num

/-- The documented equivalence: `nll_loss` applied to `log(softmax(x))`
with the default `ignore_index = -1` equals the fused
`cross_entropy_with_softmax` on `x`, whenever the labels are valid class
indices. -/
lemma nll_log_softmax_eq_cews (x : Fin O → Fin (C + 1) → Fin I → ℝ)
    (y : Fin O → Fin I → ℤ)
    (hy : ∀ o i, 0 ≤ y o i ∧ y o i < (C + 1 : ℤ)) :
    nll_loss (log_softmax x) y (-1) = cross_entropy_with_softmax x y 0 := by
  have hmask : ∀ (o : Fin O) (i : Fin I), 1 - equal (y o i) (-1) = 1 := by
    intro o i
    have h0 := (hy o i).1
    have hne : y o i ≠ -1 := by omega
    simp [equal, hne]
  have hterm : ∀ (o : Fin O) (i : Fin I),
      indexing_one_hot (log_softmax x)
          (fun o' i' => y o' i' * (1 - equal (y o' i') (-1))) o i *
        ((1 - equal (y o i) (-1) : ℤ) : ℝ) =
      -(Real.log (∑ c, Real.exp (shiftT x o c i)) -
        indexing_one_hot (shiftT x) y o i) := by
    intro o i
    obtain ⟨h0, h1⟩ := hy o i
    rw [hmask o i, indexing_one_hot_congr _ _ y o i (by rw [hmask o i, mul_one]),
      indexing_one_hot_valid _ _ o i h0 h1, indexing_one_hot_valid _ _ o i h0 h1,
      log_softmax_eq, cews_term_eq, neg_neg]
    push_cast
    ring
  have hS : (sum2 fun o i =>
      indexing_one_hot (log_softmax x)
          (fun o' i' => y o' i' * (1 - equal (y o' i') (-1))) o i *
        ((1 - equal (y o i) (-1) : ℤ) : ℝ)) =
      -(sum2 fun o i => Real.log (∑ c, Real.exp (shiftT x o c i)) -
        indexing_one_hot (shiftT x) y o i) := by
    unfold sum2
    rw [show (∑ o, ∑ i,
        indexing_one_hot (log_softmax x)
            (fun o' i' => y o' i' * (1 - equal (y o' i') (-1))) o i *
          ((1 - equal (y o i) (-1) : ℤ) : ℝ)) =
        ∑ o, ∑ i, -(Real.log (∑ c, Real.exp (shiftT x o c i)) -
          indexing_one_hot (shiftT x) y o i) from
      Finset.sum_congr rfl fun o _ => Finset.sum_congr rfl fun i _ => hterm o i]
    simp
  have hD : (sum2 fun o i => ((1 - equal (y o i) (-1) : ℤ) : ℝ)) =
      (O : ℝ) * I := by
    unfold sum2
    simp [hmask]
  rw [cews_zero_smooth]
  simp only [nll_loss]
  rw [hS, hD]
  unfold mean2
  rcases Nat.eq_zero_or_pos (O * I) with h0 | hpos
  · have hcast : (O : ℝ) * I = 0 := by
      have := congrArg (Nat.cast : ℕ → ℝ) h0
      push_cast at this
      linarith
    have hz : (sum2 fun o i => Real.log (∑ c, Real.exp (shiftT x o c i)) -
        indexing_one_hot (shiftT x) y o i) = 0 := by
      rcases Nat.mul_eq_zero.mp h0 with h | h
      · subst h
        unfold sum2
        simp
      · subst h
        unfold sum2
        simp
    rw [hz, hcast, h0]
    norm_num
  · have h1 : (1 : ℝ) ≤ (O : ℝ) * I := by
      have : (1 : ℕ) ≤ O * I := hpos
      have := (Nat.cast_le (α := ℝ)).mpr this
      push_cast at this
      linarith
    have h10 : (1.0 : ℝ) = 1 := by norm_num
    rw [h10, max_eq_left h1]
    push_cast
    ring

/-- Degree-10 Taylor bounds for `exp(-1/2)`. -/
lemma exp_neg_half_bounds :
    (0.6065306591 : ℝ) ≤ Real.exp (-(1 / 2)) ∧
      Real.exp (-(1 / 2)) ≤ 0.6065306598 := by
  have hx1 : |(-(1 / 2) : ℝ)| ≤ 1 := by
    rw [abs_neg, abs_of_nonneg] <;> norm_num
  have h := Real.exp_bound (x := (-(1 / 2) : ℝ)) hx1 (show 0 < 10 by norm_num)
  norm_num [Finset.sum_range_succ, Nat.factorial] at h
  rw [show |(1 / 2 : ℝ)| = 1 / 2 from abs_of_pos (by norm_num)] at h
  have h' := abs_le.mp h
  constructor <;> nlinarith [h'.1, h'.2]

/-- Degree-10 Taylor bounds for `exp(-9/10)`. -/
lemma exp_neg_ninetenths_bounds :
    (0.4065694652 : ℝ) ≤ Real.exp (-(9 / 10)) ∧
      Real.exp (-(9 / 10)) ≤ 0.4065696767 := by
  have hx1 : |(-(9 / 10) : ℝ)| ≤ 1 := by
    rw [abs_neg, abs_of_nonneg] <;> norm_num
  have h := Real.exp_bound (x := (-(9 / 10) : ℝ)) hx1 (show 0 < 10 by norm_num)
  norm_num [Finset.sum_range_succ, Nat.factorial] at h
  rw [show |(9 / 10 : ℝ)| = 9 / 10 from abs_of_pos (by norm_num)] at h
  have h' := abs_le.mp h
  constructor <;> nlinarith [h'.1, h'.2]

/-- Degree-10 Taylor bounds for `exp(0.47407)`. -/
lemma exp_a_lo_bounds :
    (1.6065194 : ℝ) ≤ Real.exp (47407 / 100000) ∧
      Real.exp (47407 / 100000) ≤ 1.6065195 := by
  have hx1 : |(47407 / 100000 : ℝ)| ≤ 1 := by
    rw [abs_of_nonneg] <;> norm_num
  have h := Real.exp_bound (x := (47407 / 100000 : ℝ)) hx1 (show 0 < 10 by norm_num)
  norm_num [Finset.sum_range_succ, Nat.factorial] at h
  rw [show |(47407 / 100000 : ℝ)| = 47407 / 100000 from abs_of_pos (by norm_num)] at h
  have h' := abs_le.mp h
  constructor <;> nlinarith [h'.1, h'.2]

/-- Degree-10 Taylor bounds for `exp(0.47408)`. -/
lemma exp_a_hi_bounds :
    (1.6065355 : ℝ) ≤ Real.exp (2963 / 6250) ∧
      Real.exp (2963 / 6250) ≤ 1.6065356 := by
  have hx1 : |(2963 / 6250 : ℝ)| ≤ 1 := by
    rw [abs_of_nonneg] <;> norm_num
  have h := Real.exp_bound (x := (2963 / 6250 : ℝ)) hx1 (show 0 < 10 by norm_num)
  norm_num [Finset.sum_range_succ, Nat.factorial] at h
  rw [show |(2963 / 6250 : ℝ)| = 2963 / 6250 from abs_of_pos (by norm_num)] at h
  have h' := abs_le.mp h
  constructor <;> nlinarith [h'.1, h'.2]

/-- Degree-10 Taylor bounds for `exp(0.34115)`. -/
lemma exp_b_lo_bounds :
    (1.4065642 : ℝ) ≤ Real.exp (6823 / 20000) ∧
      Real.exp (6823 / 20000) ≤ 1.4065643 := by
  have hx1 : |(6823 / 20000 : ℝ)| ≤ 1 := by
    rw [abs_of_nonneg] <;> norm_num
  have h := Real.exp_bound (x := (6823 / 20000 : ℝ)) hx1 (show 0 < 10 by norm_num)
  norm_num [Finset.sum_range_succ, Nat.factorial] at h
  rw [show |(6823 / 20000 : ℝ)| = 6823 / 20000 from abs_of_pos (by norm_num)] at h
  have h' := abs_le.mp h
  constructor <;> nlinarith [h'.1, h'.2]

/-- Degree-10 Taylor bounds for `exp(0.34116)`. -/
lemma exp_b_hi_bounds :
    (1.4065782 : ℝ) ≤ Real.exp (8529 / 25000) ∧
      Real.exp (8529 / 25000) ≤ 1.4065783 := by
  have hx1 : |(8529 / 25000 : ℝ)| ≤ 1 := by
    rw [abs_of_nonneg] <;> norm_num
  have h := Real.exp_bound (x := (8529 / 25000 : ℝ)) hx1 (show 0 < 10 by norm_num)
  norm_num [Finset.sum_range_succ, Nat.factorial] at h
  rw [show |(8529 / 25000 : ℝ)| = 8529 / 25000 from abs_of_pos (by norm_num)] at h
  have h' := abs_le.mp h
  constructor <;> nlinarith [h'.1, h'.2]

/-- Bounds for the first example term `log(1 + exp(-1/2))`. -/
lemma log_term_a_bounds :
    (47407 / 100000 : ℝ) < Real.log (1 + Real.exp (-(1 / 2))) ∧
      Real.log (1 + Real.exp (-(1 / 2))) < 2963 / 6250 := by
  have hE := exp_neg_half_bounds
  have hpos : (0 : ℝ) < 1 + Real.exp (-(1 / 2)) := by positivity
  constructor
  · rw [Real.lt_log_iff_exp_lt hpos]
    have := exp_a_lo_bounds.2
    linarith [hE.1]
  · rw [Real.log_lt_iff_lt_exp hpos]
    have := exp_a_hi_bounds.1
    linarith [hE.2]

/-- Bounds for the second example term `log(exp(-9/10) + 1)`. -/
lemma log_term_b_bounds :
    (6823 / 20000 : ℝ) < Real.log (Real.exp (-(9 / 10)) + 1) ∧
      Real.log (Real.exp (-(9 / 10)) + 1) < 8529 / 25000 := by
  have hF := exp_neg_ninetenths_bounds
  have hpos : (0 : ℝ) < Real.exp (-(9 / 10)) + 1 := by positivity
  constructor
  · rw [Real.lt_log_iff_exp_lt hpos]
    have := exp_b_lo_bounds.2
    linarith [hF.1]
  · rw [Real.log_lt_iff_lt_exp hpos]
    have := exp_b_hi_bounds.1
    linarith [hF.2]

/-- First row maximum of the example data: `max(1, 0.5) = 1`. -/
lemma maxAxis_dataC2_0 : maxAxis dataC2 0 0 = 1 := by
  unfold maxAxis
  apply le_antisymm
  · apply Finset.sup'_le
    intro c _
    fin_cases c <;> norm_num [dataC2]
  · calc (1 : ℝ) = dataC2 0 0 0 := by norm_num [dataC2]
      _ ≤ _ := Finset.le_sup' (fun c => dataC2 0 c 0) (Finset.mem_univ (0 : Fin 2))

/-- Second row maximum of the example data: `max(0.3, 1.2) = 1.2`. -/
lemma maxAxis_dataC2_1 : maxAxis dataC2 1 0 = 1.2 := by
  unfold maxAxis
  apply le_antisymm
  · apply Finset.sup'_le
    intro c _
    fin_cases c <;> norm_num [dataC2]
  · calc (1.2 : ℝ) = dataC2 1 1 0 := by norm_num [dataC2]
      _ ≤ _ := Finset.le_sup' (fun c => dataC2 1 c 0) (Finset.mem_univ (1 : Fin 2))

/-- The pick of the example: label 1 addresses class 1 in both rows. -/
lemma pick_dataC2 (o : Fin 2) :
    indexing_one_hot (shiftT dataC2) labelC2 o 0 = shiftT dataC2 o 1 0 := by
  unfold indexing_one_hot labelC2
  rw [dif_pos (by norm_num)]
  rfl

/-- Closed form of `cross_entropy_with_softmax` on the documented example. -/
lemma cews_dataC2_eval :
    cross_entropy_with_softmax dataC2 labelC2 0 =
      (Real.log (1 + Real.exp (-(1 / 2))) + 1 / 2 +
        Real.log (Real.exp (-(9 / 10)) + 1)) / 2 := by
  rw [cews_zero_smooth]
  unfold mean2 sum2
  rw [Fin.sum_univ_two]
  simp only [Fin.sum_univ_one]
  rw [pick_dataC2 0, pick_dataC2 1]
  simp only [Fin.sum_univ_succ, Fin.sum_univ_zero, add_zero, Fin.succ_zero_eq_one]
  unfold shiftT zero_grad
  rw [maxAxis_dataC2_0, maxAxis_dataC2_1]
  norm_num [dataC2, Real.exp_zero, Fin.one_eq_zero_iff]

/-- The documented example value: `cross_entropy_with_softmax` on
`[[1, 0.5], [0.3, 1.2]]` with label `[1, 1]` is within `10⁻⁵` of the
documented `0.6576154`. -/
lemma cews_dataC2_near :
    |cross_entropy_with_softmax dataC2 labelC2 0 - 0.6576154| < 1 / 100000 := by
  have hA := log_term_a_bounds
  have hB := log_term_b_bounds
  rw [cews_dataC2_eval, abs_lt]
  constructor <;> linarith [hA.1, hA.2, hB.1, hB.2]

/-- C2: for every input tensor and every label tensor whose entries are
valid class indices along the reduction axis,
`nll_loss(log_softmax(x), y)` (with the default `ignore_index = -1`)
equals `cross_entropy_with_softmax(x, y)`; and on the documented example
`x = [[1, 0.5], [0.3, 1.2]]`, `y = [1, 1]`, the common value is within
`10⁻⁵` of `0.6576154`. -/
theorem C2_nll_logsoftmax_equiv (O C I : ℕ)
    (x : Fin O → Fin (C + 1) → Fin I → ℝ) (y : Fin O → Fin I → ℤ)
    (hy : ∀ o i, 0 ≤ y o i ∧ y o i < (C + 1 : ℤ)) :
    nll_loss (log_softmax x) y (-1) = cross_entropy_with_softmax x y 0 ∧
    |cross_entropy_with_softmax dataC2 labelC2 0 - 0.6576154| < 1 / 100000 :=
  ⟨nll_log_softmax_eq_cews x y hy, cews_dataC2_near⟩

/-- Witness for C2 at the documented example input. -/
theorem C2_witness :
    nll_loss (log_softmax dataC2) labelC2 (-1) =
      cross_entropy_with_softmax dataC2 labelC2 0 ∧
    |cross_entropy_with_softmax dataC2 labelC2 0 - 0.6576154| < 1 / 100000 :=
  C2_nll_logsoftmax_equiv 2 1 1 dataC2 labelC2
    (fun o i => ⟨by norm_num [labelC2], by norm_num [labelC2]⟩)

end MegLoss
